import Mathlib

/-!
Verification of the picool decision core (src/src/main.rs).

Shallow embedding conventions:
* `f32` is modelled by `F`: either not-a-number (`F.nan`) or a finite value
  carried as an exact rational (`F.fin q`).  Rounding and the infinities are
  outside the model; every concrete constant used by the claims (targets,
  caps, observations, thresholds) is embedded as the exact rational the
  decimal literal denotes.  Comparisons on `F` follow IEEE semantics for
  NaN: every ordered comparison involving NaN is false, and `partial_cmp`
  (modelled by `F.pcmp`) returns `none` when either side is NaN.
* `Instant` is a millisecond tick count (`Nat`); `Instant - Instant`
  saturates at zero (as Rust `Instant` subtraction does), which truncated
  `Nat` subtraction matches.  `Duration`s are millisecond counts.
* Code that can panic is modelled in `Option`: `none` is the panic.  This
  affects `Compensator::new` (the zero-cap panic) and
  `Compensator::push_observation` (the `expect` inside the sort
  comparator).
-/

/-- Model of `f32`: NaN or a finite value as an exact rational. -/
inductive F where
  | nan : F
  | fin : ℚ → F
deriving DecidableEq

/-- Float addition: NaN propagates, finite values add exactly. -/
def F.add : F → F → F
  | F.fin a, F.fin b => F.fin (a + b)
  | _, _ => F.nan

/-- Float subtraction: NaN propagates, finite values subtract exactly. -/
def F.sub : F → F → F
  | F.fin a, F.fin b => F.fin (a - b)
  | _, _ => F.nan

/-- Float halving, for the code expression `(m1 + m2) / 2.0`. -/
def F.half : F → F
  | F.fin a => F.fin (a / 2)
  | F.nan => F.nan

/-- Float absolute value, for `f32::abs`. -/
def F.abs : F → F
  | F.fin a => F.fin |a|
  | F.nan => F.nan

/-- Float strict less-than; false whenever either side is NaN. -/
def F.lt : F → F → Bool
  | F.fin a, F.fin b => decide (a < b)
  | _, _ => false

/-- Float strict greater-than; false whenever either side is NaN. -/
def F.gt : F → F → Bool
  | F.fin a, F.fin b => decide (b < a)
  | _, _ => false

/-- Model of `f32::partial_cmp`: `none` exactly when a NaN is involved. -/
def F.pcmp : F → F → Option Ordering
  | F.fin a, F.fin b =>
      some (if a < b then Ordering.lt else if a = b then Ordering.eq else Ordering.gt)
  | _, _ => none

/-- True when the value is not NaN (`!value.is_nan()`). -/
def F.isFin : F → Bool
  | F.nan => false
  | F.fin _ => true

/-- Control state of the relay (enum `State` in main.rs). -/
inductive State where
  | InitiallyOff : State
  | MinimumIntervalOn : ℕ → State
  | MinimumIntervalOff : ℕ → State
  | On : State
  | Off : State
deriving DecidableEq

/-- Power description restored at startup (enum `RestoredPowerState`). -/
inductive RestoredPowerState where
  | CurrentlyOn : RestoredPowerState
  | OffFor : ℕ → RestoredPowerState
  | OffForUnknownDuration : RestoredPowerState
deriving DecidableEq

/-- MINIMUM_ON_DURATION (2 minutes) in milliseconds. -/
def MINIMUM_ON_DURATION : ℕ := 120000

/-- MINIMUM_OFF_DURATION (8 minutes) in milliseconds. -/
def MINIMUM_OFF_DURATION : ℕ := 480000

/-- Low edge of TARGET_RANGE, the literal 1.3 as an exact rational. -/
def TARGET_RANGE_start : ℚ := 13 / 10

/-- High edge of TARGET_RANGE, the literal 4.4 as an exact rational. -/
def TARGET_RANGE_end : ℚ := 22 / 5

/-- MAX_COMPENSATION, the literal 1.6 as an exact rational. -/
def MAX_COMPENSATION : ℚ := 8 / 5

/-- State.is_on from main.rs. -/
def State.is_on : State → Bool
  | State.InitiallyOff => false
  | State.MinimumIntervalOn _ => true
  | State.MinimumIntervalOff _ => false
  | State.On => true
  | State.Off => false

/-- State.is_off from main.rs. -/
def State.is_off (s : State) : Bool := !s.is_on

/-- Helper is_too_cold from main.rs. -/
def is_too_cold (temperature threshold : F) : Bool := F.lt temperature threshold

/-- Helper is_too_hot from main.rs. -/
def is_too_hot (temperature threshold : F) : Bool := F.gt temperature threshold

/-- The pure function transition from main.rs.  The Rust match arms with
guards are unfolded per constructor: a guarded state whose guard is still
active is returned unchanged, otherwise it falls through to the shared
On/Off arm, exactly as the ordered Rust match does. -/
def transition (initial : State) (current_temperature : F)
    (threshold_low threshold_high : F) (now : ℕ) : State :=
  match initial with
  | State.MinimumIntervalOn s =>
      if now - s < MINIMUM_ON_DURATION then State.MinimumIntervalOn s
      else if is_too_cold current_temperature threshold_low then State.MinimumIntervalOff now
      else State.On
  | State.MinimumIntervalOff s =>
      if now - s < MINIMUM_OFF_DURATION then State.MinimumIntervalOff s
      else if is_too_hot current_temperature threshold_high then State.MinimumIntervalOn now
      else State.Off
  | State.On =>
      if is_too_cold current_temperature threshold_low then State.MinimumIntervalOff now
      else State.On
  | State.Off =>
      if is_too_hot current_temperature threshold_high then State.MinimumIntervalOn now
      else State.Off
  | State.InitiallyOff =>
      if is_too_hot current_temperature threshold_high then State.MinimumIntervalOn now
      else State.Off

/-- Rule 1 of the decision table in spec section 4.1: the state is a
GuardedOn whose dwell guard has not yet expired. -/
def guardOnActive : State → ℕ → Bool
  | State.MinimumIntervalOn since, now => decide (now - since < MINIMUM_ON_DURATION)
  | _, _ => false

/-- Rule 2 of the decision table in spec section 4.1: the state is a
GuardedOff whose dwell guard has not yet expired. -/
def guardOffActive : State → ℕ → Bool
  | State.MinimumIntervalOff since, now => decide (now - since < MINIMUM_OFF_DURATION)
  | _, _ => false

/-- The ordered decision table of spec section 4.1, written from the words
of the spec: an unexpired guard is kept unchanged; otherwise an on state
turns off exactly when too cold, and an off state turns on exactly when
too hot. -/
def transitionSpec (s : State) (temp low high : F) (now : ℕ) : State :=
  if guardOnActive s now then s
  else if guardOffActive s now then s
  else if s.is_on then
    (if F.lt temp low then State.MinimumIntervalOff now else State.On)
  else
    (if F.gt temp high then State.MinimumIntervalOn now else State.Off)

/-- Startup recovery (the pure function init from main.rs).  The restore
result is `none` when the restore call failed.  `now - d` uses truncated
subtraction, matching the saturating Instant arithmetic of the model. -/
def init (restored : Option RestoredPowerState) (now : ℕ) : State :=
  match restored with
  | some RestoredPowerState.CurrentlyOn => State.MinimumIntervalOn now
  | some (RestoredPowerState.OffFor d) =>
      if MINIMUM_OFF_DURATION < d then State.InitiallyOff
      else State.MinimumIntervalOff (now - d)
  | some RestoredPowerState.OffForUnknownDuration => State.MinimumIntervalOff now
  | none => State.MinimumIntervalOff now

/-- Adaptive threshold compensator (struct Compensator in main.rs). -/
structure Compensator where
  target : F
  observations : List F
  compensation : F
  max_compensation : F
deriving DecidableEq

/-- Compensator::new.  The `none` result is the zero-cap panic; the check
models `classify() == FpCategory::Zero` (the two signed float zeros both
collapse to the rational 0 in this embedding).  A NaN seed is replaced by
0.0 before being stored. -/
def Compensator.new (target seed_compensation max_compensation : F) : Option Compensator :=
  if max_compensation = F.fin 0 then none
  else
    some { target := target
           observations := []
           compensation := if seed_compensation = F.nan then F.fin 0 else seed_compensation
           max_compensation := max_compensation }

/-- Compensator::is_capped from main.rs. -/
def Compensator.is_capped (c : Compensator) : Bool :=
  if F.lt c.max_compensation (F.fin 0) then F.lt c.compensation c.max_compensation
  else F.gt c.compensation c.max_compensation

/-- Compensator::is_inverted from main.rs. -/
def Compensator.is_inverted (c : Compensator) : Bool :=
  if F.lt c.max_compensation (F.fin 0) then F.gt c.compensation (F.fin 0)
  else F.lt c.compensation (F.fin 0)

/-- Compensator::get_compensation from main.rs: cap first, then the
inversion guard, otherwise the raw compensation. -/
def Compensator.get_compensation (c : Compensator) : F :=
  if c.is_capped then c.max_compensation
  else if c.is_inverted then F.fin 0
  else c.compensation

/-- Compensator::get_threshold from main.rs. -/
def Compensator.get_threshold (c : Compensator) : F :=
  F.add c.target c.get_compensation

/-- Insert a value into an already sorted list, deciding placement with
the partial_cmp comparator; a NaN comparison is the expect panic
(`none`). -/
def insertSorted (x : F) : List F → Option (List F)
  | [] => some [x]
  | y :: ys =>
      match F.pcmp x y with
      | none => none
      | some Ordering.gt => Option.map (fun l => y :: l) (insertSorted x ys)
      | some _ => some (x :: y :: ys)

/-- Model of the sorted_observations construction in push_observation:
Vec::sort_by with the partial_cmp comparator.  On NaN-free input it
returns the ascending sort; a comparison that involves NaN is the expect
panic (`none`).  (Any comparison sort must compare every element once two
are present, so the algorithm choice is immaterial for both outcomes.) -/
def sortObservations : List F → Option (List F)
  | [] => some []
  | x :: xs =>
      match sortObservations xs with
      | none => none
      | some s => insertSorted x s

/-- Median selection from push_observation (the match on
sorted_observations.len()): one element gives that element, an even count
averages the two middle elements, any other odd count takes the middle
element.  The call site always passes a nonempty list; the Rust
zero-length case would panic on index underflow and is unreachable. -/
def medianOf (s : List F) : F :=
  if s.length = 1 then s.getD 0 F.nan
  else if s.length % 2 = 0 then
    F.half (F.add (s.getD (s.length / 2 - 1) F.nan) (s.getD (s.length / 2) F.nan))
  else s.getD (s.length / 2) F.nan

/-- Compensator::push_observation from main.rs.  MAX_OBSERVATIONS is 10;
MIN_UPDATE is the literal 0.01, embedded as the exact rational 1/100.
The `none` result is the expect panic inside the sort comparator. -/
def Compensator.push_observation (c : Compensator) (value : F) : Option Compensator :=
  if value = F.nan then some c
  else
    let delta := F.sub c.get_threshold value
    let pushed := c.observations ++ [delta]
    let kept := if 10 < pushed.length then pushed.tail else pushed
    match sortObservations kept with
    | none => none
    | some sorted =>
        let median_delta := medianOf sorted
        let update := F.sub median_delta c.compensation
        if F.gt (F.abs update) (F.fin (1 / 100)) then
          some { c with observations := kept, compensation := median_delta }
        else
          some { c with observations := kept }

/-- Feed a sequence of observations into a compensator, stopping at a
panic. -/
def pushAll (c : Compensator) : List F → Option Compensator
  | [] => some c
  | v :: vs =>
      match c.push_observation v with
      | none => none
      | some c1 => pushAll c1 vs

/-- Effective compensation values observed after each successive push. -/
def compTrace (c : Compensator) : List F → Option (List F)
  | [] => some []
  | v :: vs =>
      match c.push_observation v with
      | none => none
      | some c1 => Option.map (fun l => c1.get_compensation :: l) (compTrace c1 vs)

/-- Largest finite f32 value (f32::MAX) as an exact rational, the numeral
equal to (2 ^ 24 - 1) * 2 ^ 104; f32::MIN is its negation. -/
def F32_MAX : ℚ := 340282346638528859811704183484516925440

/-- Per half-cycle extreme tracker (struct ExtremeTracker in main.rs). -/
structure ExtremeTracker where
  min : F
  max : F
  measured : Bool
deriving DecidableEq

/-- ExtremeTracker::new from main.rs: min starts at f32::MAX, max at
f32::MIN, nothing measured. -/
def ExtremeTracker.new : ExtremeTracker :=
  { min := F.fin F32_MAX, max := F.fin (-F32_MAX), measured := false }

/-- ExtremeTracker::reset from main.rs. -/
def ExtremeTracker.reset (_t : ExtremeTracker) : ExtremeTracker := ExtremeTracker.new

/-- ExtremeTracker::push from main.rs. -/
def ExtremeTracker.push (t : ExtremeTracker) (value : F) : ExtremeTracker :=
  { min := if F.lt value t.min then value else t.min
    max := if F.gt value t.max then value else t.max
    measured := true }

/-- ExtremeTracker::min from main.rs (named min? here because the Rust
method shares its name with the field it reads). -/
def ExtremeTracker.min? (t : ExtremeTracker) : Option F :=
  if t.measured then some t.min else none

/-- ExtremeTracker::max from main.rs (named max? here because the Rust
method shares its name with the field it reads). -/
def ExtremeTracker.max? (t : ExtremeTracker) : Option F :=
  if t.measured then some t.max else none

/-- Push a whole sequence of values into the tracker. -/
def pushAllT (t : ExtremeTracker) : List F → ExtremeTracker
  | [] => t
  | v :: vs => pushAllT (t.push v) vs

/-- The mutable state of the run control loop in main.rs. -/
structure LoopState where
  state : State
  low_compensator : Compensator
  high_compensator : Compensator
  low_threshold : F
  high_threshold : F
  extremes : ExtremeTracker
  cycles : ℕ
deriving DecidableEq

/-- Externally visible effects of one loop iteration: the relay command
(if any), whether the off-transition persist call was issued, and whether
the compensator and extremes bookkeeping block (the body of the
cycles > 2 branch, which ends by resetting the tracker) ran. -/
structure StepEffects where
  set_power : Option Bool
  persisted_off : Bool
  bookkeeping : Bool
deriving DecidableEq

/-- One iteration of the run loop body in main.rs (lines 105-173), from a
successful temperature read to the end of the iteration: push the reading
into the tracker, advance the state machine with the current thresholds,
and on a power-state flip command the relay, bump the cycle count, and
only once cycles > 2 run the bookkeeping block.  Sleeps, logging, and the
temperature retry loop do not touch this state and are omitted; `none` is
a panic inside push_observation. -/
def step (ls : LoopState) (temperature : F) (now : ℕ) : Option (LoopState × StepEffects) :=
  let extremes := ls.extremes.push temperature
  let new_state := transition ls.state temperature ls.low_threshold ls.high_threshold now
  if ls.state.is_on = new_state.is_on then
    some ({ ls with state := new_state, extremes := extremes }, { set_power := none, persisted_off := false, bookkeeping := false })
  else if 2 < ls.cycles + 1 then
    if new_state.is_off then
      match extremes.max? with
      | some mx =>
          match ls.high_compensator.push_observation mx with
          | none => none
          | some hc =>
              some ({ ls with state := new_state, high_compensator := hc, high_threshold := hc.get_threshold, extremes := ExtremeTracker.new, cycles := ls.cycles + 1 }, { set_power := some new_state.is_on, persisted_off := true, bookkeeping := true })
      | none =>
          some ({ ls with state := new_state, extremes := ExtremeTracker.new, cycles := ls.cycles + 1 }, { set_power := some new_state.is_on, persisted_off := true, bookkeeping := true })
    else
      match extremes.min? with
      | some mn =>
          match ls.low_compensator.push_observation mn with
          | none => none
          | some lc =>
              some ({ ls with state := new_state, low_compensator := lc, low_threshold := lc.get_threshold, extremes := ExtremeTracker.new, cycles := ls.cycles + 1 }, { set_power := some new_state.is_on, persisted_off := false, bookkeeping := true })
      | none =>
          some ({ ls with state := new_state, extremes := ExtremeTracker.new, cycles := ls.cycles + 1 }, { set_power := some new_state.is_on, persisted_off := false, bookkeeping := true })
  else
    some ({ ls with state := new_state, extremes := extremes, cycles := ls.cycles + 1 }, { set_power := some new_state.is_on, persisted_off := false, bookkeeping := false })

/-- Run the loop over a list of (temperature, clock) inputs, collecting
the per-iteration effects. -/
def runTrace (ls : LoopState) : List (F × ℕ) → Option (LoopState × List StepEffects)
  | [] => some (ls, [])
  | input :: rest =>
      match step ls input.1 input.2 with
      | none => none
      | some (ls1, e) =>
          match runTrace ls1 rest with
          | none => none
          | some (ls2, es) => some (ls2, e :: es)

/-- Number of power-state changes recorded in a list of effects. -/
def changes (es : List StepEffects) : ℕ :=
  (es.filter (fun e => e.set_power.isSome)).length

/-- Construction of the two compensators and the loop state at the top of
run in main.rs (lines 91-103): the low compensator targets
TARGET_RANGE.start with cap +MAX_COMPENSATION, the high compensator
targets TARGET_RANGE.end with cap -MAX_COMPENSATION; the thresholds start
at the fresh compensator thresholds, the tracker is empty, and the cycle
count is 0.  `none` is the construction panic (unreachable here because
both caps are nonzero). -/
def initLoopState (initial_state : State) (initial_compensation : F × F) : Option LoopState :=
  match Compensator.new (F.fin TARGET_RANGE_start) initial_compensation.1
      (F.fin MAX_COMPENSATION),
    Compensator.new (F.fin TARGET_RANGE_end) initial_compensation.2
      (F.fin (-MAX_COMPENSATION)) with
  | some lc, some hc =>
      some { state := initial_state, low_compensator := lc, high_compensator := hc, low_threshold := lc.get_threshold, high_threshold := hc.get_threshold, extremes := ExtremeTracker.new, cycles := 0 }
  | _, _ => none

/-- The compensation seed pair main passes to run (main.rs line 66): the
literal constant (0.0, 0.0). -/
def mainInitialCompensation : F × F := (F.fin 0, F.fin 0)

/-- The loop state main builds for a given restore outcome (main.rs lines
65-66): init picks the initial control state, and the compensators are
seeded from the constant pair. -/
def mainLoopState (restored : Option RestoredPowerState) (now : ℕ) : Option LoopState :=
  initLoopState (init restored now) mainInitialCompensation

/-- Modelled from the spec: struct WorldState, which restore_state returns
in real_world.rs and demo_world.rs but whose declaration is absent from
this snapshot of main.rs.  Spec section 6: the restore call returns the
RestoredPowerState plus the previously persisted low (cooling) and high
(heating) compensation seeds. -/
structure WorldState where
  power_state : RestoredPowerState
  heating_compensation : F
  cooling_compensation : F
deriving DecidableEq

/-- The WorldState the demo Environment restores (demo_world.rs,
restore_state): unknown off duration, heating seed 0.0, cooling seed
0.5. -/
def demoRestoredState : WorldState :=
  { power_state := RestoredPowerState.OffForUnknownDuration
    heating_compensation := F.fin 0
    cooling_compensation := F.fin (1 / 2) }

/-- Median selection on an already sorted rational list, as worded in the
spec: odd count takes the middle element, even count averages the two
middle elements; the single-element case is an instance of the odd
case. -/
def medianQ (s : List ℚ) : ℚ :=
  if s.length % 2 = 1 then s.getD (s.length / 2) 0
  else (s.getD (s.length / 2 - 1) 0 + s.getD (s.length / 2) 0) / 2

/-- Median rule as worded in the spec: the median of the sorted
history. -/
def medianSpec (history : List ℚ) : ℚ :=
  medianQ (List.insertionSort (fun a b => a ≤ b) history)

/-- History update as worded in the spec: append the delta, evicting the
oldest entry when the length would exceed the capacity of 10. -/
def histSpec (history : List ℚ) (delta : ℚ) : List ℚ :=
  if 10 < (history ++ [delta]).length then (history ++ [delta]).drop 1
  else history ++ [delta]

/-- C2: transition agrees with the ordered decision table of spec 4.1 on
every state, temperature, threshold pair, and timestamp. -/
theorem transition_matches_decision_table
    (s : State) (temp low high : F) (now : ℕ) :
    transition s temp low high now = transitionSpec s temp low high now := by
  cases s <;>
    simp [transition, transitionSpec, guardOnActive, guardOffActive,
      State.is_on, is_too_cold, is_too_hot]

/-- C7: pushing a NaN observation is a no-op: the compensator (hence its
history, compensation, effective compensation, and threshold) is returned
unchanged, and no panic occurs. -/
theorem push_observation_nan_is_noop (c : Compensator) :
    c.push_observation F.nan = some c
      ∧ Option.map Compensator.get_compensation (c.push_observation F.nan)
          = some c.get_compensation
      ∧ Option.map Compensator.get_threshold (c.push_observation F.nan)
          = some c.get_threshold
      ∧ Option.map Compensator.observations (c.push_observation F.nan)
          = some c.observations := by
  simp [Compensator.push_observation]

/-- A true strict float comparison forces both sides to be finite. -/
theorem F.lt_isFin {a b : F} (h : F.lt a b = true) :
    a.isFin = true ∧ b.isFin = true := by
  cases a <;> cases b <;> simp [F.lt, F.isFin] at h ⊢

/-- A true strict float comparison forces both sides to be finite. -/
theorem F.gt_isFin {a b : F} (h : F.gt a b = true) :
    a.isFin = true ∧ b.isFin = true := by
  cases a <;> cases b <;> simp [F.gt, F.isFin] at h ⊢

/-- A finite absolute value comes from a finite argument. -/
theorem F.abs_isFin {a : F} (h : (F.abs a).isFin = true) : a.isFin = true := by
  cases a <;> simp [F.abs, F.isFin] at h ⊢

/-- A finite difference comes from finite arguments. -/
theorem F.sub_isFin {a b : F} (h : (F.sub a b).isFin = true) :
    a.isFin = true ∧ b.isFin = true := by
  cases a <;> cases b <;> simp [F.sub, F.isFin] at h ⊢

/-- A successful push_observation leaves target and cap unchanged and
keeps the raw compensation finite: the epsilon guard is a float
comparison, which cannot pass when the median update is NaN. -/
theorem push_observation_preserves (c c' : Compensator) (v : F)
    (h : c.push_observation v = some c') :
    c'.target = c.target ∧ c'.max_compensation = c.max_compensation ∧
      (c.compensation.isFin = true → c'.compensation.isFin = true) := by
  unfold Compensator.push_observation at h
  split at h
  · cases h
    exact ⟨rfl, rfl, fun hf => hf⟩
  · dsimp only at h
    split at h
    · exact absurd h (by simp)
    · next sorted heq =>
      split at h
      · next hguard =>
        cases h
        refine ⟨rfl, rfl, fun _ => ?_⟩
        exact (F.sub_isFin (F.abs_isFin (F.gt_isFin hguard).1)).1
      · cases h
        exact ⟨rfl, rfl, fun hf => hf⟩

/-- pushAll leaves target and cap unchanged and keeps the raw
compensation finite. -/
theorem pushAll_preserves (values : List F) :
    ∀ c c' : Compensator, pushAll c values = some c' →
      c'.target = c.target ∧ c'.max_compensation = c.max_compensation ∧
        (c.compensation.isFin = true → c'.compensation.isFin = true) := by
  induction values with
  | nil =>
      intro c c' h
      cases h
      exact ⟨rfl, rfl, fun hf => hf⟩
  | cons v vs ih =>
      intro c c' h
      unfold pushAll at h
      cases hstep : c.push_observation v with
      | none => rw [hstep] at h; exact absurd h (by simp)
      | some c1 =>
          rw [hstep] at h
          obtain ⟨ht, hm, hf⟩ := ih c1 c' h
          obtain ⟨ht1, hm1, hf1⟩ := push_observation_preserves c c1 v hstep
          exact ⟨ht.trans ht1, hm.trans hm1, fun h0 => hf (hf1 h0)⟩

/-- With a finite raw compensation and a finite cap m, the effective
compensation is finite and confined to the interval between 0 and m. -/
theorem get_compensation_range (c : Compensator) (m k : ℚ)
    (hm : c.max_compensation = F.fin m) (hk : c.compensation = F.fin k) :
    ∃ g, c.get_compensation = F.fin g
      ∧ (0 < m → 0 ≤ g ∧ g ≤ m) ∧ (m < 0 → m ≤ g ∧ g ≤ 0) := by
  unfold Compensator.get_compensation Compensator.is_capped Compensator.is_inverted
  rw [hm, hk]
  simp only [F.lt, F.gt]
  split_ifs with h1 h2 h3 h4 h5 <;> simp only [decide_eq_true_eq] at *
  · exact ⟨m, rfl, fun h => absurd h (by linarith), fun h => ⟨le_refl m, by linarith⟩⟩
  · exact ⟨0, rfl, fun h => ⟨le_refl 0, by linarith⟩, fun h => ⟨by linarith, le_refl 0⟩⟩
  · exact ⟨k, rfl, fun h => absurd h (by linarith), fun h => ⟨by linarith, by linarith⟩⟩
  · exact ⟨m, rfl, fun h => ⟨by linarith, le_refl m⟩, fun h => absurd h (by linarith)⟩
  · exact ⟨0, rfl, fun h => ⟨le_refl 0, by linarith⟩, fun h => ⟨by linarith, le_refl 0⟩⟩
  · exact ⟨k, rfl, fun h => ⟨by linarith, by linarith⟩, fun h => ⟨by linarith, by linarith⟩⟩

/-- C1: a compensator built with a nonzero finite cap m and fed any
sequence of non-NaN observations (without panicking) reports an effective
compensation that is finite, lies in [0, m] when m is positive, and lies
in [m, 0] when m is negative: it never exceeds the cap in magnitude and
never takes the sign opposite to the cap. -/
theorem compensation_respects_cap (target seed : F) (m : ℚ) (values : List F)
    (c0 c : Compensator)
    (h0 : Compensator.new target seed (F.fin m) = some c0)
    (hvals : ∀ v ∈ values, v ≠ F.nan)
    (h : pushAll c0 values = some c) :
    ∃ g, c.get_compensation = F.fin g
      ∧ (0 < m → 0 ≤ g ∧ g ≤ m) ∧ (m < 0 → m ≤ g ∧ g ≤ 0) := by
  unfold Compensator.new at h0
  split at h0
  · exact absurd h0 (by simp)
  · cases h0
    obtain ⟨ht, hm, hf⟩ := pushAll_preserves values _ c h
    have hc0 : (Compensator.mk target []
        (if seed = F.nan then F.fin 0 else seed) (F.fin m)).compensation.isFin = true := by
      cases seed <;> simp [F.isFin]
    have hcf := hf hc0
    cases hck : c.compensation with
    | nan => rw [hck] at hcf; simp [F.isFin] at hcf
    | fin k => exact get_compensation_range c m k hm hck

theorem compensation_respects_cap_witness :
    ∃ g, (Compensator.mk (F.fin 33) [F.fin 1] (F.fin 1) (F.fin 3)).get_compensation = F.fin g
      ∧ (0 < (3 : ℚ) → 0 ≤ g ∧ g ≤ 3) ∧ ((3 : ℚ) < 0 → 3 ≤ g ∧ g ≤ 0) :=
  compensation_respects_cap (F.fin 33) (F.fin 0) 3 [F.fin 32]
    (Compensator.mk (F.fin 33) [] (F.fin 0) (F.fin 3))
    (Compensator.mk (F.fin 33) [F.fin 1] (F.fin 1) (F.fin 3))
    (by with_unfolding_all decide) (by decide) (by with_unfolding_all decide)

/-- With a raw compensation of exactly 0, neither clamp fires and the
effective compensation is 0, whatever the cap (even NaN). -/
theorem get_compensation_of_zero (t : F) (obs : List F) (mc : F) :
    (Compensator.mk t obs (F.fin 0) mc).get_compensation = F.fin 0 := by
  unfold Compensator.get_compensation Compensator.is_capped Compensator.is_inverted
  cases mc with
  | nan => simp [F.lt, F.gt]
  | fin m =>
      simp only [F.lt, F.gt]
      split_ifs with h1 h2 h3 <;> simp only [decide_eq_true_eq] at * <;>
        first
        | rfl
        | linarith

/-- C10: construction with a NaN seed does not panic and stores
compensation 0 (so the fresh effective compensation is 0), while a zero
cap is the only argument that panics: a zero cap always gives the panic
and any other cap never does. -/
theorem new_nan_seed_and_zero_cap (t s mc : F) (hm : mc ≠ F.fin 0) :
    (∃ c, Compensator.new t F.nan mc = some c ∧ c.compensation = F.fin 0
        ∧ c.get_compensation = F.fin 0)
    ∧ Compensator.new t s (F.fin 0) = none
    ∧ Compensator.new t s mc ≠ none := by
  refine ⟨⟨Compensator.mk t [] (F.fin 0) mc, ?_, rfl, get_compensation_of_zero t [] mc⟩, ?_, ?_⟩
  · simp [Compensator.new, hm]
  · simp [Compensator.new]
  · simp [Compensator.new, hm]

theorem new_nan_seed_and_zero_cap_witness :
    (∃ c, Compensator.new (F.fin 7) F.nan (F.fin 3) = some c ∧ c.compensation = F.fin 0
        ∧ c.get_compensation = F.fin 0)
    ∧ Compensator.new (F.fin 7) (F.fin 5) (F.fin 0) = none
    ∧ Compensator.new (F.fin 7) (F.fin 5) (F.fin 3) ≠ none :=
  new_nan_seed_and_zero_cap (F.fin 7) (F.fin 5) (F.fin 3) (by with_unfolding_all decide)

/-- C4: startup recovery maps CurrentlyOn to GuardedOn(now), OffFor(d)
with d beyond the minimum off duration to InitiallyOff, OffFor(d) with d
within it to GuardedOff(now - d), an unknown off duration to
GuardedOff(now), and a failed restore call to GuardedOff(now). -/
theorem init_startup_recovery (now d1 d2 : ℕ)
    (h1 : MINIMUM_OFF_DURATION < d1) (h2 : d2 ≤ MINIMUM_OFF_DURATION) :
    init (some RestoredPowerState.CurrentlyOn) now = State.MinimumIntervalOn now
    ∧ init (some (RestoredPowerState.OffFor d1)) now = State.InitiallyOff
    ∧ init (some (RestoredPowerState.OffFor d2)) now = State.MinimumIntervalOff (now - d2)
    ∧ init (some RestoredPowerState.OffForUnknownDuration) now = State.MinimumIntervalOff now
    ∧ init none now = State.MinimumIntervalOff now := by
  refine ⟨rfl, ?_, ?_, rfl, rfl⟩ <;> simp [init]
  · exact h1
  · omega

theorem init_startup_recovery_witness :
    init (some RestoredPowerState.CurrentlyOn) 999999 = State.MinimumIntervalOn 999999
    ∧ init (some (RestoredPowerState.OffFor 480001)) 999999 = State.InitiallyOff
    ∧ init (some (RestoredPowerState.OffFor 480000)) 999999
        = State.MinimumIntervalOff (999999 - 480000)
    ∧ init (some RestoredPowerState.OffForUnknownDuration) 999999
        = State.MinimumIntervalOff 999999
    ∧ init none 999999 = State.MinimumIntervalOff 999999 :=
  init_startup_recovery 999999 480001 480000 (by decide) (by decide)

/-- Inserting a finite value into a list of finite values with the
partial_cmp comparator succeeds and agrees with ordered insertion on the
underlying rationals. -/
theorem insertSorted_map_fin (x : ℚ) (l : List ℚ) :
    insertSorted (F.fin x) (l.map F.fin)
      = some ((List.orderedInsert (fun a b => a ≤ b) x l).map F.fin) := by
  induction l with
  | nil => rfl
  | cons y ys ih =>
      simp only [List.map_cons, insertSorted, F.pcmp, List.orderedInsert]
      rcases lt_trichotomy x y with h | h | h
      · rw [if_pos h, if_pos (le_of_lt h)]
        rfl
      · rw [if_neg (by rw [h]; exact lt_irrefl y), if_pos h, if_pos (le_of_eq h)]
        rfl
      · rw [if_neg (by exact not_lt_of_gt h), if_neg (by exact ne_of_gt h),
          if_neg (by exact not_le_of_gt h)]
        rw [ih]
        rfl

/-- Sorting a list of finite values with the partial_cmp comparator never
panics and agrees with insertion sort on the underlying rationals. -/
theorem sortObservations_map_fin (l : List ℚ) :
    sortObservations (l.map F.fin)
      = some ((List.insertionSort (fun a b => a ≤ b) l).map F.fin) := by
  induction l with
  | nil => rfl
  | cons x xs ih =>
      simp only [List.map_cons, sortObservations, List.insertionSort]
      rw [ih]
      exact insertSorted_map_fin x _

/-- getD on a mapped list, inside the range. -/
theorem getD_map_fin (l : List ℚ) (n : ℕ) (h : n < l.length) :
    (l.map F.fin).getD n F.nan = F.fin (l.getD n 0) := by
  rw [List.getD_eq_getElem?_getD, List.getD_eq_getElem?_getD, List.getElem?_map,
    List.getElem?_eq_getElem h]
  rfl

/-- On a nonempty list of finite values the code median agrees with the
spec median rule on the underlying rationals. -/
theorem medianOf_map_fin (s : List ℚ) (hs : s ≠ []) :
    medianOf (s.map F.fin) = F.fin (medianQ s) := by
  have hpos : 0 < s.length := List.length_pos.mpr hs
  unfold medianOf medianQ
  rw [List.length_map]
  by_cases h1 : s.length = 1
  · rw [if_pos h1, if_pos (by omega), getD_map_fin _ _ (by omega), h1]
  · rw [if_neg h1]
    by_cases h2 : s.length % 2 = 0
    · rw [if_pos h2, if_neg (by omega), getD_map_fin _ _ (by omega),
        getD_map_fin _ _ (by omega)]
      simp [F.add, F.half]
    · rw [if_neg h2, if_pos (by omega), getD_map_fin _ _ (by omega)]

/-- A finite raw compensation gives a finite effective compensation,
whatever the cap: the cap is only returned when a comparison against it
succeeded, which forces it finite. -/
theorem get_compensation_isFin (c : Compensator) (h : c.compensation.isFin = true) :
    c.get_compensation.isFin = true := by
  unfold Compensator.get_compensation
  split_ifs with h1 h2
  · unfold Compensator.is_capped at h1
    split_ifs at h1
    · exact (F.lt_isFin h1).2
    · exact (F.gt_isFin h1).2
  · rfl
  · exact h

/-- The spec history update never produces an empty history. -/
theorem histSpec_ne_nil (os : List ℚ) (d : ℚ) : histSpec os d ≠ [] := by
  unfold histSpec
  split_ifs with h
  · apply List.length_pos.mp
    rw [List.length_drop]
    simp only [List.length_append, List.length_singleton] at h ⊢
    omega
  · apply List.length_pos.mp
    simp

/-- Characterisation of a push of a finite value on a compensator whose
history is finite and whose raw compensation is the finite k: the new
history and compensation are exactly what the spec sentence describes,
with the delta computed from the effective threshold. -/
theorem push_observation_spec_aux (t k v g : ℚ) (mc : F) (os : List ℚ)
    (hg : (Compensator.mk (F.fin t) (os.map F.fin) (F.fin k) mc).get_compensation = F.fin g) :
    (Compensator.mk (F.fin t) (os.map F.fin) (F.fin k) mc).push_observation (F.fin v)
      = some (Compensator.mk (F.fin t) ((histSpec os (t + g - v)).map F.fin)
          (F.fin (if 1 / 100 < |medianSpec (histSpec os (t + g - v)) - k|
            then medianSpec (histSpec os (t + g - v)) else k)) mc) := by
  have hth : F.sub (Compensator.mk (F.fin t) (os.map F.fin) (F.fin k) mc).get_threshold
      (F.fin v) = F.fin (t + g - v) := by
    unfold Compensator.get_threshold
    rw [hg]
    simp [F.add, F.sub]
  unfold Compensator.push_observation
  rw [if_neg (by simp)]
  dsimp only
  rw [hth]
  have hkept : (os.map F.fin ++ [F.fin (t + g - v)]) = (os ++ [t + g - v]).map F.fin := by
    simp
  rw [hkept, List.length_map]
  have hkept2 : (if 10 < (os ++ [t + g - v]).length
        then ((os ++ [t + g - v]).map F.fin).tail
        else (os ++ [t + g - v]).map F.fin)
      = (histSpec os (t + g - v)).map F.fin := by
    unfold histSpec
    split_ifs with h
    · rw [List.drop_one]
      exact (List.map_tail _ _).symm
    · rfl
  rw [hkept2, sortObservations_map_fin]
  have hsort_ne : List.insertionSort (fun a b => a ≤ b) (histSpec os (t + g - v)) ≠ [] := by
    apply List.length_pos.mp
    rw [List.length_insertionSort]
    exact List.length_pos.mpr (histSpec_ne_nil os (t + g - v))
  dsimp only
  rw [medianOf_map_fin _ hsort_ne]
  unfold medianSpec
  simp only [F.sub, F.abs, F.gt]
  by_cases hcond : 1 / 100
      < |medianQ (List.insertionSort (fun a b => a ≤ b) (histSpec os (t + g - v))) - k|
  · rw [if_pos (by exact decide_eq_true hcond), if_pos hcond]
  · rw [if_neg (by simpa using hcond), if_neg hcond]

/-- C3: push_observation of a non-NaN value computes the delta as the
current threshold minus the value, appends it to the history with the
capacity-10 oldest-first eviction rule, recomputes the median of the
history by the spec rule (single element: that element; odd: middle of
the sorted history; even: average of the two middle), and assigns it to
the compensation exactly when it differs from the current compensation by
more than 0.01; and the worked example (target 33, cap 3, observations
32, 33, 32.5, 32.5, 32.75) yields the compensations 1, 1, 1, 1.25,
1.5. -/
theorem push_observation_functional (t k v : ℚ) (mc : F) (os : List ℚ) (c' : Compensator)
    (h : (Compensator.mk (F.fin t) (os.map F.fin) (F.fin k) mc).push_observation (F.fin v)
        = some c') :
    (∃ d g, (Compensator.mk (F.fin t) (os.map F.fin) (F.fin k) mc).get_compensation = F.fin g
      ∧ F.sub (Compensator.mk (F.fin t) (os.map F.fin) (F.fin k) mc).get_threshold (F.fin v)
          = F.fin d
      ∧ c'.observations = (histSpec os d).map F.fin
      ∧ c'.compensation = F.fin (if 1 / 100 < |medianSpec (histSpec os d) - k|
          then medianSpec (histSpec os d) else k))
    ∧ Compensator.new (F.fin 33) (F.fin 0) (F.fin 3)
        = some (Compensator.mk (F.fin 33) [] (F.fin 0) (F.fin 3))
    ∧ compTrace (Compensator.mk (F.fin 33) [] (F.fin 0) (F.fin 3))
        [F.fin 32, F.fin 33, F.fin (65 / 2), F.fin (65 / 2), F.fin (131 / 4)]
        = some [F.fin 1, F.fin 1, F.fin 1, F.fin (5 / 4), F.fin (3 / 2)] := by
  refine ⟨?_, by with_unfolding_all decide, by with_unfolding_all decide⟩
  have hfin : (Compensator.mk (F.fin t) (os.map F.fin) (F.fin k) mc).get_compensation.isFin
      = true := get_compensation_isFin _ rfl
  obtain ⟨g, hg⟩ : ∃ g, (Compensator.mk (F.fin t) (os.map F.fin) (F.fin k) mc).get_compensation
      = F.fin g := by
    cases hgc : (Compensator.mk (F.fin t) (os.map F.fin) (F.fin k) mc).get_compensation with
    | nan => rw [hgc] at hfin; exact absurd hfin (by simp [F.isFin])
    | fin g => exact ⟨g, rfl⟩
  rw [push_observation_spec_aux t k v g mc os hg] at h
  injection h with h2
  subst h2
  refine ⟨t + g - v, g, hg, ?_, rfl, rfl⟩
  unfold Compensator.get_threshold
  rw [hg]
  simp [F.add, F.sub]

theorem push_observation_functional_witness :
    (∃ d g, (Compensator.mk (F.fin 33) (List.map F.fin []) (F.fin 0) (F.fin 3)).get_compensation
          = F.fin g
      ∧ F.sub (Compensator.mk (F.fin 33) (List.map F.fin []) (F.fin 0) (F.fin 3)).get_threshold
          (F.fin 32) = F.fin d
      ∧ (Compensator.mk (F.fin 33) [F.fin 1] (F.fin 1) (F.fin 3)).observations
          = (histSpec [] d).map F.fin
      ∧ (Compensator.mk (F.fin 33) [F.fin 1] (F.fin 1) (F.fin 3)).compensation
          = F.fin (if 1 / 100 < |medianSpec (histSpec [] d) - 0|
              then medianSpec (histSpec [] d) else 0))
    ∧ Compensator.new (F.fin 33) (F.fin 0) (F.fin 3)
        = some (Compensator.mk (F.fin 33) [] (F.fin 0) (F.fin 3))
    ∧ compTrace (Compensator.mk (F.fin 33) [] (F.fin 0) (F.fin 3))
        [F.fin 32, F.fin 33, F.fin (65 / 2), F.fin (65 / 2), F.fin (131 / 4)]
        = some [F.fin 1, F.fin 1, F.fin 1, F.fin (5 / 4), F.fin (3 / 2)] :=
  push_observation_functional 33 0 32 (F.fin 3) []
    (Compensator.mk (F.fin 33) [F.fin 1] (F.fin 1) (F.fin 3))
    (by with_unfolding_all decide)

/-- A list of NaN-free float values is the image of a rational list. -/
theorem all_isFin_eq_map (l : List F) (h : ∀ x ∈ l, x.isFin = true) :
    ∃ qs : List ℚ, l = qs.map F.fin := by
  induction l with
  | nil => exact ⟨[], rfl⟩
  | cons x xs ih =>
      obtain ⟨qs, hqs⟩ := ih (fun y hy => h y (List.mem_cons_of_mem _ hy))
      cases x with
      | nan => exact absurd (h F.nan (List.mem_cons_self _ _)) (by simp [F.isFin])
      | fin q => exact ⟨q :: qs, by rw [List.map_cons, hqs]⟩

/-- On a compensator whose target, compensation, and history are all
NaN-free, push_observation never panics and preserves that NaN-freedom,
for an arbitrary observation value. -/
theorem push_observation_total :
    ∀ (c : Compensator) (v : F), c.target.isFin = true → c.compensation.isFin = true →
      (∀ x ∈ c.observations, x.isFin = true) →
      ∃ c', c.push_observation v = some c' ∧ c'.target.isFin = true
        ∧ c'.compensation.isFin = true ∧ ∀ x ∈ c'.observations, x.isFin = true := by
  rintro ⟨tF, obsF, kF, mcF⟩ v ht hk hobs
  cases v with
  | nan =>
      exact ⟨_, by simp [Compensator.push_observation], ht, hk, hobs⟩
  | fin v0 =>
      cases tF with
      | nan => exact absurd ht (by simp [F.isFin])
      | fin t =>
        cases kF with
        | nan => exact absurd hk (by simp [F.isFin])
        | fin k =>
          obtain ⟨os, rfl⟩ := all_isFin_eq_map obsF hobs
          have hfin : (Compensator.mk (F.fin t) (os.map F.fin) (F.fin k)
              mcF).get_compensation.isFin = true := get_compensation_isFin _ rfl
          obtain ⟨g, hg⟩ : ∃ g, (Compensator.mk (F.fin t) (os.map F.fin) (F.fin k)
              mcF).get_compensation = F.fin g := by
            cases hgc : (Compensator.mk (F.fin t) (os.map F.fin) (F.fin k)
                mcF).get_compensation with
            | nan => rw [hgc] at hfin; exact absurd hfin (by simp [F.isFin])
            | fin g => exact ⟨g, rfl⟩
          refine ⟨_, push_observation_spec_aux t k v0 g mcF os hg, rfl, rfl, ?_⟩
          intro x hx
          obtain ⟨q, -, rfl⟩ := List.mem_map.mp hx
          rfl

/-- C8 (amended: the target must be non-NaN, as the two targets the
program constructs are): starting from any compensator built by new with
a finite target and feeding arbitrary values, no push ever panics — in
particular the partial_cmp comparison inside the sort never returns
None — and the history never contains NaN. -/
theorem history_never_nan (t : ℚ) (seed mc : F) (c0 : Compensator) (values : List F)
    (h0 : Compensator.new (F.fin t) seed mc = some c0) :
    ∃ c, pushAll c0 values = some c ∧ ∀ x ∈ c.observations, x ≠ F.nan := by
  have main : ∀ (vs : List F) (c : Compensator), c.target.isFin = true →
      c.compensation.isFin = true → (∀ x ∈ c.observations, x.isFin = true) →
      ∃ c', pushAll c vs = some c' ∧ c'.target.isFin = true
        ∧ c'.compensation.isFin = true ∧ ∀ x ∈ c'.observations, x.isFin = true := by
    intro vs
    induction vs with
    | nil => intro c ht hk hobs; exact ⟨c, rfl, ht, hk, hobs⟩
    | cons v vs ih =>
        intro c ht hk hobs
        obtain ⟨c1, hstep, h1, h2, h3⟩ := push_observation_total c v ht hk hobs
        obtain ⟨c2, hrest, hinv⟩ := ih c1 h1 h2 h3
        refine ⟨c2, ?_, hinv⟩
        unfold pushAll
        rw [hstep]
        exact hrest
  unfold Compensator.new at h0
  split at h0
  · exact absurd h0 (by simp)
  · cases h0
    obtain ⟨c, hrun, -, -, hobs⟩ := main values
      (Compensator.mk (F.fin t) [] (if seed = F.nan then F.fin 0 else seed) mc) rfl
      (by cases seed <;> simp [F.isFin]) (by simp)
    refine ⟨c, hrun, fun x hx => ?_⟩
    have := hobs x hx
    cases x with
    | nan => exact absurd this (by simp [F.isFin])
    | fin q => simp

/-- C8 counterexample: new accepts a NaN target; the first push then
stores NaN in the history, and a second push reaches the expect panic in
the sort comparator. -/
theorem history_nan_counterexample :
    Compensator.new F.nan (F.fin 0) (F.fin 3)
        = some (Compensator.mk F.nan [] (F.fin 0) (F.fin 3))
    ∧ (Compensator.mk F.nan [] (F.fin 0) (F.fin 3)).push_observation (F.fin 0)
        = some (Compensator.mk F.nan [F.nan] (F.fin 0) (F.fin 3))
    ∧ F.nan ∈ [F.nan]
    ∧ pushAll (Compensator.mk F.nan [] (F.fin 0) (F.fin 3)) [F.fin 0, F.fin 0] = none := by
  refine ⟨?_, ?_, ?_, ?_⟩ <;> with_unfolding_all decide

theorem history_never_nan_witness :
    ∃ c, pushAll (Compensator.mk (F.fin 33) [] (F.fin 0) (F.fin 3)) [F.nan, F.fin 32] = some c
      ∧ ∀ x ∈ c.observations, x ≠ F.nan :=
  history_never_nan 33 (F.fin 0) (F.fin 3)
    (Compensator.mk (F.fin 33) [] (F.fin 0) (F.fin 3)) [F.nan, F.fin 32]
    (by with_unfolding_all decide)

/-- Pushing a finite value updates the tracker extremes by rational min
and max and marks the tracker measured. -/
theorem push_fin (a b : ℚ) (m : Bool) (q : ℚ) :
    ExtremeTracker.push ⟨F.fin a, F.fin b, m⟩ (F.fin q)
      = ⟨F.fin (min q a), F.fin (max q b), true⟩ := by
  unfold ExtremeTracker.push
  simp only [F.lt, F.gt, ExtremeTracker.mk.injEq]
  refine ⟨?_, ?_, trivial⟩
  · by_cases h : q < a
    · simp [h, min_eq_left (le_of_lt h)]
    · simp [h, min_eq_right (le_of_not_lt h)]
  · by_cases h : b < q
    · simp [h, max_eq_left (le_of_lt h)]
    · simp [h, max_eq_right (le_of_not_lt h)]

/-- Pushing a list of finite values folds rational min and max over the
start values. -/
theorem pushAllT_fin (qs : List ℚ) : ∀ (a b : ℚ) (m : Bool),
    pushAllT ⟨F.fin a, F.fin b, m⟩ (qs.map F.fin)
      = ⟨F.fin (qs.foldl (fun x y => min y x) a),
         F.fin (qs.foldl (fun x y => max y x) b),
         qs.foldl (fun _ _ => true) m⟩ := by
  induction qs with
  | nil => intro a b m; rfl
  | cons q qs ih =>
      intro a b m
      simp only [List.map_cons, pushAllT, List.foldl_cons]
      rw [push_fin, ih]

/-- Folding the constant true over a nonempty list gives true. -/
theorem foldl_true (qs : List ℚ) : ∀ m : Bool, qs ≠ [] →
    qs.foldl (fun _ _ => true) m = true := by
  induction qs with
  | nil => intro m h; exact absurd rfl h
  | cons q qs ih =>
      intro m h
      rw [List.foldl_cons]
      by_cases hq : qs = []
      · subst hq; rfl
      · exact ih true hq

/-- The min fold either keeps the start value or lands in the list, and
bounds the start value and every element from below. -/
theorem foldl_min_spec (qs : List ℚ) : ∀ a : ℚ,
    (qs.foldl (fun x y => min y x) a = a ∨ qs.foldl (fun x y => min y x) a ∈ qs)
    ∧ qs.foldl (fun x y => min y x) a ≤ a
    ∧ ∀ q ∈ qs, qs.foldl (fun x y => min y x) a ≤ q := by
  induction qs with
  | nil => intro a; exact ⟨Or.inl rfl, le_refl a, by simp⟩
  | cons q qs ih =>
      intro a
      obtain ⟨hmem, hle, hall⟩ := ih (min q a)
      rw [List.foldl_cons]
      refine ⟨?_, le_trans hle (min_le_right q a), ?_⟩
      · rcases hmem with h | h
        · rcases min_cases q a with ⟨he, -⟩ | ⟨he, -⟩
          · right; rw [h, he]; exact List.mem_cons_self q qs
          · left; rw [h, he]
        · right; exact List.mem_cons_of_mem q h
      · intro x hx
        rcases List.mem_cons.mp hx with rfl | hx
        · exact le_trans hle (min_le_left x a)
        · exact hall x hx

/-- The max fold either keeps the start value or lands in the list, and
bounds the start value and every element from above. -/
theorem foldl_max_spec (qs : List ℚ) : ∀ b : ℚ,
    (qs.foldl (fun x y => max y x) b = b ∨ qs.foldl (fun x y => max y x) b ∈ qs)
    ∧ b ≤ qs.foldl (fun x y => max y x) b
    ∧ ∀ q ∈ qs, q ≤ qs.foldl (fun x y => max y x) b := by
  induction qs with
  | nil => intro b; exact ⟨Or.inl rfl, le_refl b, by simp⟩
  | cons q qs ih =>
      intro b
      obtain ⟨hmem, hle, hall⟩ := ih (max q b)
      rw [List.foldl_cons]
      refine ⟨?_, le_trans (le_max_right q b) hle, ?_⟩
      · rcases hmem with h | h
        · rcases max_cases q b with ⟨he, -⟩ | ⟨he, -⟩
          · right; rw [h, he]; exact List.mem_cons_self q qs
          · left; rw [h, he]
        · right; exact List.mem_cons_of_mem q h
      · intro x hx
        rcases List.mem_cons.mp hx with rfl | hx
        · exact le_trans (le_max_left x b) hle
        · exact hall x hx

/-- C9 counterexample: a single NaN push marks the tracker measured
without touching the extremes, so min() reports f32::MAX, max() reports
f32::MIN, and the reported minimum exceeds the reported maximum. -/
theorem extreme_tracker_nan_counterexample :
    (ExtremeTracker.new.push F.nan).min? = some (F.fin F32_MAX)
    ∧ (ExtremeTracker.new.push F.nan).max? = some (F.fin (-F32_MAX))
    ∧ ¬(F32_MAX ≤ -F32_MAX) := by
  refine ⟨?_, ?_, ?_⟩ <;> decide

/-- C9 (amended: the pushed values must be non-NaN, and within the finite
f32 range as every finite f32 is): a fresh or reset tracker reports
absence from both min() and max(); after at least one pushed value, min()
and max() report the least and greatest pushed values, and min() is at
most max(); pushes 5, 2, 9 give min 2 and max 9. -/
theorem extreme_tracker_minmax (qs : List ℚ)
    (hne : qs ≠ []) (hrange : ∀ q ∈ qs, |q| ≤ F32_MAX) :
    (ExtremeTracker.new.min? = none ∧ ExtremeTracker.new.max? = none
      ∧ ∀ t : ExtremeTracker, t.reset = ExtremeTracker.new)
    ∧ (∃ lo hi, (pushAllT ExtremeTracker.new (qs.map F.fin)).min? = some (F.fin lo)
        ∧ (pushAllT ExtremeTracker.new (qs.map F.fin)).max? = some (F.fin hi)
        ∧ lo ∈ qs ∧ hi ∈ qs ∧ (∀ q ∈ qs, lo ≤ q ∧ q ≤ hi) ∧ lo ≤ hi)
    ∧ (pushAllT ExtremeTracker.new [F.fin 5, F.fin 2, F.fin 9]).min? = some (F.fin 2)
    ∧ (pushAllT ExtremeTracker.new [F.fin 5, F.fin 2, F.fin 9]).max? = some (F.fin 9) := by
  refine ⟨⟨rfl, rfl, fun t => rfl⟩, ?_, by with_unfolding_all decide,
    by with_unfolding_all decide⟩
  obtain ⟨hminmem, hminle, hminall⟩ := foldl_min_spec qs F32_MAX
  obtain ⟨hmaxmem, hmaxle, hmaxall⟩ := foldl_max_spec qs (-F32_MAX)
  obtain ⟨q0, hq0⟩ := List.exists_mem_of_ne_nil qs hne
  have hlomem : qs.foldl (fun x y => min y x) F32_MAX ∈ qs := by
    rcases hminmem with h | h
    · have h1 : qs.foldl (fun x y => min y x) F32_MAX ≤ q0 := hminall q0 hq0
      have h2 : q0 ≤ F32_MAX := (abs_le.mp (hrange q0 hq0)).2
      have h3 : qs.foldl (fun x y => min y x) F32_MAX = q0 :=
        le_antisymm h1 (by rw [h]; exact h2)
      rw [h3]; exact hq0
    · exact h
  have hhimem : qs.foldl (fun x y => max y x) (-F32_MAX) ∈ qs := by
    rcases hmaxmem with h | h
    · have h1 : q0 ≤ qs.foldl (fun x y => max y x) (-F32_MAX) := hmaxall q0 hq0
      have h2 : -F32_MAX ≤ q0 := (abs_le.mp (hrange q0 hq0)).1
      have h3 : qs.foldl (fun x y => max y x) (-F32_MAX) = q0 :=
        le_antisymm (by rw [h]; exact h2) h1
      rw [h3]; exact hq0
    · exact h
  refine ⟨qs.foldl (fun x y => min y x) F32_MAX, qs.foldl (fun x y => max y x) (-F32_MAX),
    ?_, ?_, hlomem, hhimem, fun q hq => ⟨hminall q hq, hmaxall q hq⟩,
    le_trans (hminall q0 hq0) (hmaxall q0 hq0)⟩
  · rw [show ExtremeTracker.new = ⟨F.fin F32_MAX, F.fin (-F32_MAX), false⟩ from rfl,
      pushAllT_fin qs F32_MAX (-F32_MAX) false]
    unfold ExtremeTracker.min?
    rw [foldl_true qs false hne]
    rfl
  · rw [show ExtremeTracker.new = ⟨F.fin F32_MAX, F.fin (-F32_MAX), false⟩ from rfl,
      pushAllT_fin qs F32_MAX (-F32_MAX) false]
    unfold ExtremeTracker.max?
    rw [foldl_true qs false hne]
    rfl

theorem extreme_tracker_minmax_witness :
    (ExtremeTracker.new.min? = none ∧ ExtremeTracker.new.max? = none
      ∧ ∀ t : ExtremeTracker, t.reset = ExtremeTracker.new)
    ∧ (∃ lo hi, (pushAllT ExtremeTracker.new (List.map F.fin [5, 2, 9])).min?
          = some (F.fin lo)
        ∧ (pushAllT ExtremeTracker.new (List.map F.fin [5, 2, 9])).max? = some (F.fin hi)
        ∧ lo ∈ [5, 2, 9] ∧ hi ∈ [5, 2, 9]
        ∧ (∀ q ∈ ([5, 2, 9] : List ℚ), lo ≤ q ∧ q ≤ hi) ∧ lo ≤ hi)
    ∧ (pushAllT ExtremeTracker.new [F.fin 5, F.fin 2, F.fin 9]).min? = some (F.fin 2)
    ∧ (pushAllT ExtremeTracker.new [F.fin 5, F.fin 2, F.fin 9]).max? = some (F.fin 9) :=
  extreme_tracker_minmax [5, 2, 9] (by simp) (by with_unfolding_all decide)

/-- Counting power-state changes distributes over cons. -/
theorem changes_cons (e : StepEffects) (l : List StepEffects) :
    changes (e :: l) = (if e.set_power.isSome = true then 1 else 0) + changes l := by
  unfold changes
  by_cases h : e.set_power.isSome = true <;> simp [List.filter_cons, h]
  omega

/-- One loop iteration runs the bookkeeping block exactly when the power
state flipped and the incremented cycle count exceeds 2, and the cycle
count grows exactly on power flips. -/
theorem step_effects (ls : LoopState) (temp : F) (now : ℕ) (ls' : LoopState)
    (e : StepEffects) (h : step ls temp now = some (ls', e)) :
    (e.bookkeeping = true ↔ (e.set_power.isSome = true ∧ 2 < ls.cycles + 1))
    ∧ ls'.cycles = ls.cycles + (if e.set_power.isSome = true then 1 else 0) := by
  unfold step at h
  dsimp only at h
  split at h
  · simp only [Option.some.injEq, Prod.mk.injEq] at h
    obtain ⟨h1, h2⟩ := h
    subst h1; subst h2
    simp
  · next hchange =>
    split at h
    · next hcount =>
      split at h
      · split at h
        · split at h
          · exact absurd h (by simp)
          · simp only [Option.some.injEq, Prod.mk.injEq] at h
            obtain ⟨h1, h2⟩ := h
            subst h1; subst h2
            simp [hcount]
        · simp only [Option.some.injEq, Prod.mk.injEq] at h
          obtain ⟨h1, h2⟩ := h
          subst h1; subst h2
          simp [hcount]
      · split at h
        · split at h
          · exact absurd h (by simp)
          · simp only [Option.some.injEq, Prod.mk.injEq] at h
            obtain ⟨h1, h2⟩ := h
            subst h1; subst h2
            simp [hcount]
        · simp only [Option.some.injEq, Prod.mk.injEq] at h
          obtain ⟨h1, h2⟩ := h
          subst h1; subst h2
          simp [hcount]
    · next hcount =>
      simp only [Option.some.injEq, Prod.mk.injEq] at h
      obtain ⟨h1, h2⟩ := h
      subst h1; subst h2
      simp [hcount]

/-- Along any run of the loop, the cycle count grows by the number of
power-state changes, and the bookkeeping block runs at a step exactly
when that step is a power-state change and the cycle count carried into
the run plus the number of changes up to and including that step exceeds
2. -/
theorem runTrace_bookkeeping (inputs : List (F × ℕ)) :
    ∀ (ls lsN : LoopState) (effs : List StepEffects),
      runTrace ls inputs = some (lsN, effs) →
      lsN.cycles = ls.cycles + changes effs
      ∧ ∀ k, k < effs.length →
          ((effs.getD k ⟨none, false, false⟩).bookkeeping = true
            ↔ ((effs.getD k ⟨none, false, false⟩).set_power.isSome = true
                ∧ 2 < ls.cycles + changes (effs.take (k + 1)))) := by
  induction inputs with
  | nil =>
      intro ls lsN effs h
      unfold runTrace at h
      simp only [Option.some.injEq, Prod.mk.injEq] at h
      obtain ⟨h1, h2⟩ := h
      subst h1; subst h2
      exact ⟨by simp [changes], by intro k hk; simp at hk⟩
  | cons input rest ih =>
      intro ls lsN effs h
      unfold runTrace at h
      cases hstep : step ls input.1 input.2 with
      | none => rw [hstep] at h; exact absurd h (by simp)
      | some out =>
          rw [hstep] at h
          obtain ⟨ls1, e⟩ := out
          dsimp only at h
          cases hrest : runTrace ls1 rest with
          | none => rw [hrest] at h; exact absurd h (by simp)
          | some out2 =>
              rw [hrest] at h
              obtain ⟨ls2, es⟩ := out2
              simp only [Option.some.injEq, Prod.mk.injEq] at h
              obtain ⟨h1, h2⟩ := h
              subst h1; subst h2
              obtain ⟨hcyc, hall⟩ := ih ls1 ls2 es hrest
              obtain ⟨hiff, hc1⟩ := step_effects ls input.1 input.2 ls1 e hstep
              constructor
              · rw [hcyc, hc1, changes_cons]
                omega
              · intro k hk
                cases k with
                | zero =>
                    simp only [List.getD_cons_zero, List.take_succ_cons, List.take_zero]
                    rw [hiff, changes_cons]
                    have hz : changes ([] : List StepEffects) = 0 := rfl
                    rw [hz]
                    by_cases hsp : e.set_power.isSome = true
                    · simp only [hsp, if_true, true_and]
                    · simp [hsp]
                | succ k =>
                    have hk' : k < es.length := by simpa using hk
                    have hrec := hall k hk'
                    simp only [List.getD_cons_succ, List.take_succ_cons]
                    rw [hrec, hc1, changes_cons]
                    by_cases hsp : e.set_power.isSome = true <;> simp [hsp] <;> omega

/-- run always starts its loop with a cycle count of 0. -/
theorem initLoopState_cycles (s : State) (seeds : F × F) (ls : LoopState)
    (h : initLoopState s seeds = some ls) : ls.cycles = 0 := by
  unfold initLoopState at h
  split at h
  · simp only [Option.some.injEq] at h
    subst h
    rfl
  · exact absurd h (by simp)

/-- C5 (amended: the bookkeeping is skipped for the first two power-state
changes, not only the first): starting from any loop state with cycle
count 0 — as every state built by run at startup is, last conjunct — the
compensator/extremes bookkeeping block runs at a step exactly when that
step is a power-state change and it is at least the third change since
startup. -/
theorem bookkeeping_skips_first_two_changes
    (ls0 : LoopState) (inputs : List (F × ℕ)) (lsN : LoopState) (effs : List StepEffects)
    (h0 : ls0.cycles = 0)
    (h : runTrace ls0 inputs = some (lsN, effs)) :
    (∀ k, k < effs.length →
      ((effs.getD k ⟨none, false, false⟩).bookkeeping = true
        ↔ ((effs.getD k ⟨none, false, false⟩).set_power.isSome = true
            ∧ 2 < changes (effs.take (k + 1)))))
    ∧ lsN.cycles = changes effs
    ∧ ∀ (s : State) (seeds : F × F) (ls : LoopState),
        initLoopState s seeds = some ls → ls.cycles = 0 := by
  obtain ⟨hcyc, hall⟩ := runTrace_bookkeeping inputs ls0 lsN effs h
  rw [h0] at hcyc
  simp only [h0, Nat.zero_add] at hall
  exact ⟨hall, by rw [hcyc]; omega, initLoopState_cycles⟩

/-- C5 counterexample: from the exact loop state run builds at startup,
drive the temperature so that the power state changes twice (off to on,
then on to off after the on-guard expires).  Both changes command the
relay, yet the bookkeeping block runs for neither of them — the second
change is also skipped, although the claim says only the first one is. -/
theorem warmup_skips_second_change :
    Option.map (fun out => (out.2.map (fun e => e.set_power),
        out.2.map (fun e => e.bookkeeping),
        out.2.map (fun e => e.persisted_off),
        changes out.2, out.1.cycles))
      ((initLoopState State.Off mainInitialCompensation).bind
        (fun ls0 => runTrace ls0 [(F.fin 10, 0), (F.fin 0, 120000)]))
      = some ([some true, some false], [false, false], [false, false], 2, 2) := by
  with_unfolding_all decide

theorem bookkeeping_skips_first_two_changes_witness :
    (([StepEffects.mk (some true) false false,
        StepEffects.mk (some false) false false].getD 1 ⟨none, false, false⟩).bookkeeping = true
      ↔ (([StepEffects.mk (some true) false false,
            StepEffects.mk (some false) false false].getD 1
              ⟨none, false, false⟩).set_power.isSome = true
          ∧ 2 < changes ([StepEffects.mk (some true) false false,
              StepEffects.mk (some false) false false].take 2))) :=
  (bookkeeping_skips_first_two_changes
    (LoopState.mk State.Off
      (Compensator.mk (F.fin 1) [] (F.fin 0) (F.fin 1))
      (Compensator.mk (F.fin 4) [] (F.fin 0) (F.fin (-1)))
      (F.fin 1) (F.fin 4) (ExtremeTracker.mk (F.fin 0) (F.fin 0) false) 0)
    [(F.fin 10, 0), (F.fin 0, 120000)]
    (LoopState.mk (State.MinimumIntervalOff 120000)
      (Compensator.mk (F.fin 1) [] (F.fin 0) (F.fin 1))
      (Compensator.mk (F.fin 4) [] (F.fin 0) (F.fin (-1)))
      (F.fin 1) (F.fin 4) (ExtremeTracker.mk (F.fin 0) (F.fin 10) true) 2)
    [StepEffects.mk (some true) false false, StepEffects.mk (some false) false false]
    rfl (by decide)).1 1 (by decide)

/-- C6: main.rs line 66 calls run with the literal constant pair
(0.0, 0.0) as the initial compensation, so both compensators start with
compensation 0 whatever the restore outcome.  The WorldState that
restore_state returns in the world implementations carries the persisted
seeds — 0.5 for the demo cooling seed — and the low compensator does not
receive it.  run itself honours its initial_compensation parameter (last
conjunct), so the seeds are lost in main, not in run. -/
theorem startup_seeding_constant :
    mainInitialCompensation = (F.fin 0, F.fin 0)
    ∧ Option.map (fun ls => (ls.low_compensator.compensation,
          ls.high_compensator.compensation))
        (mainLoopState (some demoRestoredState.power_state) 0)
        = some (F.fin 0, F.fin 0)
    ∧ demoRestoredState.cooling_compensation = F.fin (1 / 2)
    ∧ F.fin 0 ≠ demoRestoredState.cooling_compensation
    ∧ ∀ (s : State) (sl sh : ℚ) (ls : LoopState),
        initLoopState s (F.fin sl, F.fin sh) = some ls →
          ls.low_compensator.compensation = F.fin sl
          ∧ ls.high_compensator.compensation = F.fin sh := by
  refine ⟨rfl, by with_unfolding_all decide, rfl, by with_unfolding_all decide, ?_⟩
  intro s sl sh ls h
  have hl : Compensator.new (F.fin TARGET_RANGE_start) (F.fin sl) (F.fin MAX_COMPENSATION)
      = some (Compensator.mk (F.fin TARGET_RANGE_start) [] (F.fin sl)
          (F.fin MAX_COMPENSATION)) := by
    unfold Compensator.new
    rw [if_neg (by simp only [ne_eq, F.fin.injEq, MAX_COMPENSATION]; norm_num),
      if_neg (by simp)]
  have hh : Compensator.new (F.fin TARGET_RANGE_end) (F.fin sh)
      (F.fin (-MAX_COMPENSATION))
      = some (Compensator.mk (F.fin TARGET_RANGE_end) [] (F.fin sh)
          (F.fin (-MAX_COMPENSATION))) := by
    unfold Compensator.new
    rw [if_neg (by simp only [ne_eq, F.fin.injEq, MAX_COMPENSATION]; norm_num),
      if_neg (by simp)]
  unfold initLoopState at h
  dsimp only at h
  rw [hl, hh] at h
  simp only [Option.some.injEq] at h
  subst h
  exact ⟨rfl, rfl⟩
